import Mathlib

/-!
Verification of the HRMS leave–attendance reconciliation engine
(`src/server/routes/attendance.js` — the attendance router and the leaves
router — together with the mongoose models `Attendance`, `Leave`,
`Employee`).

Shallow embedding conventions:
* Timestamps are natural numbers (milliseconds); a calendar day is the
  quotient by `msPerDay`.  `setHours(0,0,0,0)` / `setHours(23,59,59,999)`
  become `dayStartTs` / `dayEndTs`.
* Attendance records keep timestamp-precision dates, exactly as the
  `Attendance` collection stores `Date` values; this precision is what the
  duplicate checks in the routes operate on.
* Leave requests carry day-granular `startDay`/`endDay` (the routes
  normalise leave spans to whole days before using them; the spec's data
  model declares them as calendar days).
* Mongo collections are lists in insertion order; `findOne` is `List.find?`;
  a `save` of a new document appends.
-/

namespace HRMS

/-- Milliseconds in one calendar day. -/
def msPerDay : Nat := 86400000

/-- Calendar day of a timestamp (truncation of time-of-day). -/
def dayOf (t : Nat) : Nat := t / msPerDay

/-- Timestamp of `d` at 00:00:00.000 — the value of `setHours(0,0,0,0)`. -/
def dayStartTs (d : Nat) : Nat := d * msPerDay

/-- Timestamp of `d` at 23:59:59.999 — the value of `setHours(23,59,59,999)`. -/
def dayEndTs (d : Nat) : Nat := d * msPerDay + (msPerDay - 1)

/-- Attendance status enum of the `Attendance` schema. -/
inductive AttStatus
  | present
  | absent
  | halfDay
  | leave
deriving DecidableEq, Repr

/-- An `Attendance` document: employee reference, stored `Date` value
(timestamp precision) and status.  `createdBy`/`createdAt` are audit fields
no claim mentions and are omitted. -/
structure AttRec where
  employee : Nat
  date : Nat
  status : AttStatus
deriving DecidableEq, Repr

/-- Employee status enum of the `Employee` schema. -/
inductive EmpStatus
  | active
  | inactive
deriving DecidableEq, Repr

/-- An `Employee` document (the fields the routes read). -/
structure Employee where
  id : Nat
  name : String
  status : EmpStatus
deriving DecidableEq, Repr

/-- Leave status enum of the `Leave` schema. -/
inductive LeaveStatus
  | pending
  | approved
  | rejected
deriving DecidableEq, Repr

/-- Leave type enum of the `Leave` schema. -/
inductive LeaveType
  | sick
  | casual
  | annual
  | other
deriving DecidableEq, Repr

/-- A `Leave` document.  Dates are day-granular (see file header). -/
structure LeaveRequest where
  employee : Nat
  startDay : Nat
  endDay : Nat
  ltype : LeaveType
  status : LeaveStatus
deriving DecidableEq, Repr

/-- Does record `r` belong to employee `e` on calendar day `d`?  This is the
day-window query `date: {$gte: setHours(0,0,0,0), $lte: setHours(23,59,59,999)}`
of the sync loop in `PUT /leaves/:id`. -/
def matchesDay (e d : Nat) (r : AttRec) : Bool :=
  r.employee == e && dayOf r.date == d

/-- `findOne` the first record for `(e, d)` and overwrite its status with
`leave` (`attendance.status = 'leave'; attendance.save()`). -/
def updateFirstLeave (e d : Nat) : List AttRec → List AttRec
  | [] => []
  | r :: rs =>
    if matchesDay e d r then { r with status := AttStatus.leave } :: rs
    else r :: updateFirstLeave e d rs

/-- One iteration of the sync loop of `PUT /leaves/:id` for day `d`: if an
attendance record exists in the day window, overwrite its status to `leave`;
otherwise insert a new record.  The inserted record's `date` is
`dayEndTs d`: the loop variable has been mutated to 23:59:59.999 by the
second `date.setHours(23, 59, 59, 999)` used to build the query before
`new Attendance({ ..., date, ... })` reads it. -/
def syncDay (e : Nat) (s : List AttRec) (d : Nat) : List AttRec :=
  if s.any (matchesDay e d) then updateFirstLeave e d s
  else s ++ [⟨e, dayEndTs d, AttStatus.leave⟩]

/-- The `dateRange` built by the `while (currentDate <= end)` loops: every
calendar day from `ds` to `de` inclusive, empty when `ds > de`. -/
def dayRangeList (ds de : Nat) : List Nat :=
  (List.range (de + 1 - ds)).map (ds + ·)

/-- The sync block of `PUT /leaves/:id`: upsert every day of the span. -/
def syncSpan (e ds de : Nat) (s : List AttRec) : List AttRec :=
  (dayRangeList ds de).foldl (syncDay e) s

/-- Reconciler sync of an approved leave over the attendance state. -/
def syncLeave (l : LeaveRequest) (s : List AttRec) : List AttRec :=
  syncSpan l.employee l.startDay l.endDay s

/-- Error outcomes of `POST /attendance`. -/
inductive PostAttErr
  | employeeNotFound
  | employeeNotActive
  | duplicateDate
deriving DecidableEq, Repr

/-- `findById` over the employee collection. -/
def findEmployee (emps : List Employee) (i : Nat) : Option Employee :=
  emps.find? (fun e => e.id == i)

/-- `POST /attendance`: manual attendance creation.  The duplicate check is
`findOne({ employee, date: new Date(date) })` — an exact-timestamp match, not
a day-window match.  (The schema's unique index on `{employee, date}` is also
exact-timestamp and is subsumed by this check for the inserted value.) -/
def postAttendance (emps : List Employee) (s : List AttRec) (e ts : Nat)
    (st : AttStatus) : Except PostAttErr (List AttRec) :=
  match findEmployee emps e with
  | none => Except.error PostAttErr.employeeNotFound
  | some emp =>
    if emp.status != EmpStatus.active then Except.error PostAttErr.employeeNotActive
    else if s.any (fun r => r.employee == e && r.date == ts) then
      Except.error PostAttErr.duplicateDate
    else Except.ok (s ++ [⟨e, ts, st⟩])

/-- `PUT /leaves/:id` on a found leave: overwrite status with the body's
status when one is supplied (`if (status) leaveFields.status = status`), and
run the attendance sync exactly when the body's status is `approved`
(`if (status === 'approved')`).  Returns the updated leave, the resulting
attendance state, and whether the sync ran. -/
def putLeave (l : LeaveRequest) (body : Option LeaveStatus) (s : List AttRec) :
    LeaveRequest × List AttRec × Bool :=
  let nl := { l with status := body.getD l.status }
  if body == some LeaveStatus.approved then (nl, syncLeave nl s, true)
  else (nl, s, false)

/-- The three-branch `$or` used by both `POST /leaves` and
`GET /leaves/calendar` to test whether interval `[aS, aE]` (a stored leave)
meets interval `[bS, bE]` (the query interval): the stored start lies in the
query interval, or the stored end does, or the stored interval contains the
query interval. -/
def overlapsDisjunct (aS aE bS bE : Nat) : Bool :=
  (bS ≤ aS && aS ≤ bE) || (bS ≤ aE && aE ≤ bE) || (aS ≤ bS && bE ≤ aE)

/-- Modelled from the spec (section 4.1), for refinement comparison with
`overlapsDisjunct`: closed intervals intersect iff `aS ≤ bE ∧ bS ≤ aE`. -/
def overlaps (aS aE bS bE : Nat) : Bool :=
  aS ≤ bE && bS ≤ aE

/-- Error outcomes of `POST /leaves`. -/
inductive CreateErr
  | employeeNotFound
  | employeeInactive
  | noAttendanceHistory
  | overlappingLeave
deriving DecidableEq, Repr

/-- The persistent collections the leaves routes touch. -/
structure Env where
  employees : List Employee
  attendance : List AttRec
  leaves : List LeaveRequest
deriving Repr

/-- Request body of `POST /leaves`. -/
structure LeaveInput where
  employee : Nat
  startDay : Nat
  endDay : Nat
  ltype : LeaveType
deriving DecidableEq, Repr

/-- `POST /leaves`: employee must exist and be active; the employee must
have at least one `present` attendance record; no existing leave of the
employee — of ANY status, the query carries no status filter — may overlap
the requested span; on success a `pending` leave is inserted (`status` takes
the schema default `'pending'`). -/
def createLeave (env : Env) (req : LeaveInput) :
    Except CreateErr (LeaveRequest × Env) :=
  match findEmployee env.employees req.employee with
  | none => Except.error CreateErr.employeeNotFound
  | some emp =>
    if emp.status != EmpStatus.active then Except.error CreateErr.employeeInactive
    else if !(env.attendance.any (fun r =>
        r.employee == req.employee && r.status == AttStatus.present)) then
      Except.error CreateErr.noAttendanceHistory
    else if env.leaves.any (fun l => l.employee == req.employee &&
        overlapsDisjunct l.startDay l.endDay req.startDay req.endDay) then
      Except.error CreateErr.overlappingLeave
    else
      let nl : LeaveRequest :=
        ⟨req.employee, req.startDay, req.endDay, req.ltype, LeaveStatus.pending⟩
      Except.ok (nl, { env with leaves := env.leaves ++ [nl] })

/-- Per-employee tally of `GET /attendance/report`. -/
structure Tally where
  present : Nat
  absent : Nat
  halfDay : Nat
  leave : Nat
  total : Nat
deriving DecidableEq, Repr

/-- One row of the report: the employee id and the tally. -/
structure ReportEntry where
  employee : Nat
  tally : Tally
deriving DecidableEq, Repr

/-- Number of records in `l` with status `st` (`filter(...).length`). -/
def countStatus (l : List AttRec) (st : AttStatus) : Nat :=
  (l.filter (fun r => r.status == st)).length

/-- The date filter of `GET /attendance/report`:
`date: { $gte: start.setHours(0,0,0,0), $lte: end.setHours(23,59,59,999) }`. -/
def inWindow (ds de : Nat) (r : AttRec) : Bool :=
  dayStartTs ds ≤ r.date && r.date ≤ dayEndTs de

/-- `GET /attendance/report`: fetch records dated within the window, then map
every ACTIVE employee to the counts of their in-window records by status,
with `total` the sum of the four counts. -/
def attendanceReport (emps : List Employee) (recs : List AttRec) (ds de : Nat) :
    List ReportEntry :=
  let rangeRecs := recs.filter (inWindow ds de)
  (emps.filter (fun emp => emp.status == EmpStatus.active)).map (fun emp =>
    let empAtt := rangeRecs.filter (fun r => r.employee == emp.id)
    let p := countStatus empAtt AttStatus.present
    let a := countStatus empAtt AttStatus.absent
    let h := countStatus empAtt AttStatus.halfDay
    let lv := countStatus empAtt AttStatus.leave
    ⟨emp.id, ⟨p, a, h, lv, p + a + h + lv⟩⟩)

/-- Modelled from the spec, for comparison with `attendanceReport`: the
number of attendance records of employee `e` with status `st` whose calendar
day lies in `[ds, de]`. -/
def specDayCount (recs : List AttRec) (e ds de : Nat) (st : AttStatus) : Nat :=
  (recs.filter (fun r => r.employee == e && r.status == st &&
    (decide (ds ≤ dayOf r.date) && decide (dayOf r.date ≤ de)))).length

/-- Civil-calendar day number (days since 0000-03-01, Gregorian), the
standard days-from-civil computation; used to model JavaScript
`new Date(year, monthIndex, dayOfMonth)` at day granularity. -/
def dayNumber (y m d : Nat) : Nat :=
  let yAdj := if m ≤ 2 then y - 1 else y
  let era := yAdj / 400
  let yoe := yAdj % 400
  let mp := (m + 9) % 12
  let doy := (153 * mp + 2) / 5 + d - 1
  let doe := yoe * 365 + yoe / 4 - yoe / 100 + doy
  era * 146097 + doe

/-- `new Date(year, month - 1, 1)` of `GET /leaves/calendar`: first day of
the queried month. -/
def monthStartDay (month year : Nat) : Nat :=
  dayNumber year month 1

/-- `new Date(year, month, 0)` of `GET /leaves/calendar`: the day before the
first day of the following month, i.e. the last day of the queried month. -/
def monthEndDay (month year : Nat) : Nat :=
  (if month == 12 then dayNumber (year + 1) 1 1 else dayNumber year (month + 1) 1) - 1

/-- One calendar projection entry `{date, employee, type}`. -/
structure CalEntry where
  day : Nat
  employeeName : String
  ltype : LeaveType
deriving DecidableEq, Repr

/-- Core of `GET /leaves/calendar` over an explicit day window
`[wS, wE]`: select the `approved` leaves satisfying the three-branch `$or`
overlap query, and for each emit one entry per day of
`[max(startDate, wS), min(endDate, wE)]` (`Math.max`/`Math.min` clip, then
the `while (currentDate <= end)` loop); the per-leave lists are flattened. -/
def calendarEntries (leaves : List LeaveRequest) (empName : Nat → String)
    (wS wE : Nat) : List CalEntry :=
  ((leaves.filter (fun l => l.status == LeaveStatus.approved &&
      overlapsDisjunct l.startDay l.endDay wS wE)).map (fun l =>
    (dayRangeList (max l.startDay wS) (min l.endDay wE)).map (fun d =>
      ⟨d, empName l.employee, l.ltype⟩))).flatten

/-- `GET /leaves/calendar?month=&year=`. -/
def leaveCalendar (leaves : List LeaveRequest) (empName : Nat → String)
    (month year : Nat) : List CalEntry :=
  calendarEntries leaves empName (monthStartDay month year) (monthEndDay month year)

/-- Modelled from the spec (section 4.5), for refinement comparison with
`calendarEntries`: for every approved leave whose span intersects the window
(single `overlaps` predicate), one entry per clipped day. -/
def calendarSpec (leaves : List LeaveRequest) (empName : Nat → String)
    (wS wE : Nat) : List CalEntry :=
  ((leaves.filter (fun l => l.status == LeaveStatus.approved &&
      overlaps l.startDay l.endDay wS wE)).map (fun l =>
    (dayRangeList (max l.startDay wS) (min l.endDay wE)).map (fun d =>
      ⟨d, empName l.employee, l.ltype⟩))).flatten

/-- HTTP methods used by the leaves router. -/
inductive Method
  | get
  | post
  | put
  | delete
deriving DecidableEq, Repr

/-- A path pattern segment: a literal or a named parameter. -/
inductive Seg
  | lit (s : String)
  | param (s : String)
deriving DecidableEq, Repr

/-- The handlers of the leaves router, one tag per registered route. -/
inductive LeavesRoute
  | listAll
  | createOne
  | getById
  | updateById
  | deleteById
  | getDocument
  | calendar
deriving DecidableEq, Repr

/-- The leaves router's routes in registration order:
`GET /`, `POST /`, `GET /:id`, `PUT /:id`, `DELETE /:id`,
`GET /:id/document`, `GET /calendar`. -/
def leavesRoutes : List (Method × List Seg × LeavesRoute) :=
  [ (Method.get, [], LeavesRoute.listAll),
    (Method.post, [], LeavesRoute.createOne),
    (Method.get, [Seg.param "id"], LeavesRoute.getById),
    (Method.put, [Seg.param "id"], LeavesRoute.updateById),
    (Method.delete, [Seg.param "id"], LeavesRoute.deleteById),
    (Method.get, [Seg.param "id", Seg.lit "document"], LeavesRoute.getDocument),
    (Method.get, [Seg.lit "calendar"], LeavesRoute.calendar) ]

/-- Does a pattern match a concrete path (segment lists of equal length,
literals equal, parameters matching any segment)? -/
def segsMatch : List Seg → List String → Bool
  | [], [] => true
  | Seg.lit s :: ps, x :: xs => s == x && segsMatch ps xs
  | Seg.param _ :: ps, _ :: xs => segsMatch ps xs
  | _, _ => false

/-- Parameter bindings extracted by a successful match. -/
def bindParams : List Seg → List String → List (String × String)
  | Seg.lit _ :: ps, _ :: xs => bindParams ps xs
  | Seg.param n :: ps, x :: xs => (n, x) :: bindParams ps xs
  | _, _ => []

/-- Express dispatch: the first registered route whose method and pattern
match handles the request. -/
def dispatchLeaves (m : Method) (path : List String) : Option LeavesRoute :=
  (leavesRoutes.find? (fun r => r.1 == m && segsMatch r.2.1 path)).map (fun r => r.2.2)

/-- Mongoose accepts as an `ObjectId` a 24-character hex string or a
12-character string; anything else raises a `CastError` of kind
`ObjectId`. -/
def isValidObjectId (s : String) : Bool :=
  (s.length == 24 && s.toList.all (fun c =>
    c.isDigit || ('a' ≤ c && c ≤ 'f') || ('A' ≤ c && c ≤ 'F'))) || s.length == 12

/-- Responses of `GET /leaves/:id`. -/
inductive LeaveResponse
  | ok (l : LeaveRequest)
  | notFound
deriving DecidableEq, Repr

/-- `GET /leaves/:id`: an invalid object id makes `findById` raise a
`CastError` of kind `ObjectId`, which the handler's catch turns into the
404 `'Leave not found'` response; a valid id that matches no document gets
the same 404. -/
def getLeaveById (db : List (String × LeaveRequest)) (i : String) : LeaveResponse :=
  if !isValidObjectId i then LeaveResponse.notFound
  else
    match db.find? (fun p => p.1 == i) with
    | some p => LeaveResponse.ok p.2
    | none => LeaveResponse.notFound

/-- The first record for `(e, d)` in `s` exists and already has status
`leave` — the state the sync loop establishes for each day it visits. -/
def goodDay (e d : Nat) (s : List AttRec) : Bool :=
  ((s.find? (matchesDay e d)).map (fun r => r.status == AttStatus.leave)).getD false

theorem find?_append_left {p : AttRec → Bool} {s : List AttRec} {r : AttRec}
    (t : List AttRec) (h : s.find? p = some r) : (s ++ t).find? p = some r := by
  induction s with
  | nil => simp [List.find?] at h
  | cons a as ih =>
    rw [List.cons_append]
    cases hp : p a with
    | true => simpa [List.find?, hp] using h
    | false =>
      rw [List.find?_cons_of_neg _ (by simp [hp])] at h ⊢
      exact ih h

theorem find?_append_none {p : AttRec → Bool} {s : List AttRec}
    (t : List AttRec) (h : s.find? p = none) : (s ++ t).find? p = t.find? p := by
  induction s with
  | nil => simp
  | cons a as ih =>
    cases hp : p a with
    | true => simp [List.find?, hp] at h
    | false =>
      rw [List.find?_cons_of_neg _ (by simp [hp])] at h
      rw [List.cons_append, List.find?_cons_of_neg _ (by simp [hp])]
      exact ih h

theorem updateFirstLeave_cons (e d : Nat) (r : AttRec) (rs : List AttRec) :
    updateFirstLeave e d (r :: rs) =
      if matchesDay e d r then { r with status := AttStatus.leave } :: rs
      else r :: updateFirstLeave e d rs := rfl

theorem goodDay_any {e d : Nat} {s : List AttRec} (h : goodDay e d s = true) :
    s.any (matchesDay e d) = true := by
  unfold goodDay at h
  cases hf : s.find? (matchesDay e d) with
  | none => rw [hf] at h; simp at h
  | some r =>
    have hm := List.find?_some hf
    have hmem := List.mem_of_find?_eq_some hf
    exact List.any_eq_true.2 ⟨r, hmem, hm⟩

theorem goodDay_status {e d : Nat} {s : List AttRec} {r : AttRec}
    (h : goodDay e d s = true) (hf : s.find? (matchesDay e d) = some r) :
    r.status = AttStatus.leave := by
  unfold goodDay at h
  rw [hf] at h
  simpa using h

theorem updateFirstLeave_of_goodDay {e d : Nat} {s : List AttRec}
    (h : goodDay e d s = true) : updateFirstLeave e d s = s := by
  induction s with
  | nil => rfl
  | cons r rs ih =>
    cases hp : matchesDay e d r with
    | true =>
      have hst : r.status = AttStatus.leave :=
        goodDay_status h (List.find?_cons_of_pos _ hp)
      rw [updateFirstLeave_cons, hp]
      simp only [if_true]
      cases r
      simp_all
    | false =>
      have h2 : goodDay e d rs = true := by
        unfold goodDay at h ⊢
        rwa [List.find?_cons_of_neg _ (by simp [hp])] at h
      rw [updateFirstLeave_cons, hp]
      simp [ih h2]

theorem syncDay_of_goodDay {e d : Nat} {s : List AttRec}
    (h : goodDay e d s = true) : syncDay e s d = s := by
  unfold syncDay
  rw [goodDay_any h]
  simp [updateFirstLeave_of_goodDay h]

theorem dayOf_dayEndTs (d : Nat) : dayOf (dayEndTs d) = d := by
  unfold dayOf dayEndTs msPerDay
  rw [Nat.mul_comm, Nat.mul_add_div (by norm_num)]
  norm_num

theorem goodDay_updateFirstLeave_self {e d : Nat} {s : List AttRec}
    (h : s.any (matchesDay e d) = true) :
    goodDay e d (updateFirstLeave e d s) = true := by
  induction s with
  | nil => simp at h
  | cons r rs ih =>
    cases hp : matchesDay e d r with
    | true =>
      rw [updateFirstLeave_cons, hp]
      simp only [if_true]
      unfold goodDay
      have hp2 : matchesDay e d { r with status := AttStatus.leave } = true := by
        simpa [matchesDay] using hp
      rw [List.find?_cons_of_pos _ hp2]
      simp
    | false =>
      have h2 : rs.any (matchesDay e d) = true := by
        simpa [List.any_cons, hp] using h
      rw [updateFirstLeave_cons, hp]
      simp only [Bool.false_eq_true, if_false]
      unfold goodDay
      rw [List.find?_cons_of_neg _ (by simp [hp])]
      exact ih h2

theorem goodDay_syncDay_self (e d : Nat) (s : List AttRec) :
    goodDay e d (syncDay e s d) = true := by
  unfold syncDay
  cases hany : s.any (matchesDay e d) with
  | true => simpa using goodDay_updateFirstLeave_self hany
  | false =>
    simp only [Bool.false_eq_true, if_false]
    unfold goodDay
    have hnone : s.find? (matchesDay e d) = none := by
      rw [List.find?_eq_none]
      intro x hx hpx
      have h1 := List.any_eq_true.2 ⟨x, hx, hpx⟩
      rw [hany] at h1
      exact Bool.false_ne_true h1
    rw [find?_append_none _ hnone]
    have hm : matchesDay e d (⟨e, dayEndTs d, AttStatus.leave⟩ : AttRec) = true := by
      simp [matchesDay, dayOf_dayEndTs]
    rw [List.find?_cons_of_pos _ hm]
    simp



theorem matchesDay_other {e d d' : Nat} (hne : d ≠ d') {r : AttRec}
    (hp' : matchesDay e d' r = true) : matchesDay e d r = false := by
  simp [matchesDay] at hp' ⊢
  intro _
  omega

theorem matchesDay_set_status (e d : Nat) (r : AttRec) (st : AttStatus) :
    matchesDay e d { r with status := st } = matchesDay e d r := rfl

theorem goodDay_cons_skip {e d : Nat} {r : AttRec} {rs : List AttRec}
    (hp : matchesDay e d r = false) :
    goodDay e d (r :: rs) = goodDay e d rs := by
  unfold goodDay
  rw [List.find?_cons_of_neg _ (by simp [hp])]

theorem goodDay_updateFirstLeave_other {e d d' : Nat} (hne : d ≠ d')
    {s : List AttRec} (h : goodDay e d s = true) :
    goodDay e d (updateFirstLeave e d' s) = true := by
  induction s with
  | nil => simpa using h
  | cons r rs ih =>
    cases hp' : matchesDay e d' r with
    | true =>
      have hm : matchesDay e d r = false := matchesDay_other hne hp'
      have hm2 : matchesDay e d { r with status := AttStatus.leave } = false := by
        rw [matchesDay_set_status]; exact hm
      rw [updateFirstLeave_cons, hp']
      simp only [if_true]
      rw [goodDay_cons_skip hm2]
      rwa [goodDay_cons_skip hm] at h
    | false =>
      rw [updateFirstLeave_cons, hp']
      simp only [Bool.false_eq_true, if_false]
      cases hp : matchesDay e d r with
      | true =>
        unfold goodDay at h ⊢
        rw [List.find?_cons_of_pos _ hp] at h ⊢
        exact h
      | false =>
        rw [goodDay_cons_skip hp]
        rw [goodDay_cons_skip hp] at h
        exact ih h

theorem goodDay_syncDay_other {e d d' : Nat} (hne : d ≠ d')
    {s : List AttRec} (h : goodDay e d s = true) :
    goodDay e d (syncDay e s d') = true := by
  unfold syncDay
  cases hany : s.any (matchesDay e d') with
  | true =>
    simp only [if_true]
    exact goodDay_updateFirstLeave_other hne h
  | false =>
    simp only [Bool.false_eq_true, if_false]
    cases hf : s.find? (matchesDay e d) with
    | none => unfold goodDay at h; rw [hf] at h; simp at h
    | some r =>
      unfold goodDay
      rw [find?_append_left _ hf]
      have := goodDay_status h hf
      simp [this]

theorem goodDay_foldl_not_mem {e d : Nat} {L : List Nat} (hnm : d ∉ L)
    {s : List AttRec} (h : goodDay e d s = true) :
    goodDay e d (L.foldl (syncDay e) s) = true := by
  induction L generalizing s with
  | nil => simpa using h
  | cons d' L' ih =>
    have hne : d ≠ d' := fun hd => hnm (hd ▸ List.mem_cons_self d' L')
    have hnm' : d ∉ L' := fun hd => hnm (List.mem_cons_of_mem d' hd)
    rw [List.foldl_cons]
    exact ih hnm' (goodDay_syncDay_other hne h)

theorem goodDay_foldl_mem {e d : Nat} {L : List Nat} (hm : d ∈ L)
    (s : List AttRec) : goodDay e d (L.foldl (syncDay e) s) = true := by
  induction L generalizing s with
  | nil => simp at hm
  | cons d' L' ih =>
    rw [List.foldl_cons]
    by_cases hm' : d ∈ L'
    · exact ih hm' _
    · have hd : d = d' := by
        rcases List.mem_cons.1 hm with h1 | h1
        · exact h1
        · exact absurd h1 hm'
      subst hd
      exact goodDay_foldl_not_mem hm' (goodDay_syncDay_self e d s)

theorem foldl_syncDay_fixed {e : Nat} {L : List Nat} {s : List AttRec}
    (h : ∀ d ∈ L, goodDay e d s = true) : L.foldl (syncDay e) s = s := by
  induction L with
  | nil => rfl
  | cons d' L' ih =>
    rw [List.foldl_cons, syncDay_of_goodDay (h d' (List.mem_cons_self d' L'))]
    exact ih (fun d hd => h d (List.mem_cons_of_mem d' hd))


theorem overlapsDisjunct_eq_overlaps {aS aE bS bE : Nat} (ha : aS ≤ aE)
    (hb : bS ≤ bE) : overlapsDisjunct aS aE bS bE = overlaps aS aE bS bE := by
  unfold overlapsDisjunct overlaps
  apply Bool.eq_iff_iff.2
  simp only [Bool.or_eq_true, Bool.and_eq_true, decide_eq_true_iff]
  omega

theorem window_day_iff (ds de t : Nat) :
    (dayStartTs ds ≤ t ∧ t ≤ dayEndTs de) ↔ (ds ≤ dayOf t ∧ dayOf t ≤ de) := by
  unfold dayStartTs dayEndTs dayOf msPerDay
  constructor
  · rintro ⟨h1, h2⟩
    refine ⟨(Nat.le_div_iff_mul_le (by norm_num)).2 h1, ?_⟩
    have h3 : t < (de + 1) * 86400000 := by omega
    have h4 := (Nat.div_lt_iff_lt_mul (by norm_num)).2 h3
    omega
  · rintro ⟨h1, h2⟩
    refine ⟨(Nat.le_div_iff_mul_le (by norm_num)).1 h1, ?_⟩
    have h3 : t / 86400000 < de + 1 := by omega
    have h4 := (Nat.div_lt_iff_lt_mul (by norm_num)).1 h3
    omega

theorem inWindow_eq_day (ds de : Nat) (r : AttRec) :
    inWindow ds de r =
      (decide (ds ≤ dayOf r.date) && decide (dayOf r.date ≤ de)) := by
  unfold inWindow
  apply Bool.eq_iff_iff.2
  simp only [Bool.and_eq_true, decide_eq_true_iff]
  exact window_day_iff ds de r.date

theorem count_filter_spec (recs : List AttRec) (e ds de : Nat) (st : AttStatus) :
    countStatus ((recs.filter (inWindow ds de)).filter (fun r => r.employee == e)) st =
      specDayCount recs e ds de st := by
  unfold countStatus specDayCount
  rw [← List.countP_eq_length_filter, ← List.countP_eq_length_filter,
    List.countP_filter, List.countP_filter]
  apply List.countP_congr
  intro r _
  rw [inWindow_eq_day]
  cases hemp : (r.employee == e) <;> cases hst : (r.status == st) <;>
    cases h1 : (decide (ds ≤ dayOf r.date)) <;> cases h2 : (decide (dayOf r.date ≤ de)) <;>
    simp



theorem attendanceReport_general (emps : List Employee) (recs : List AttRec)
    (ds de : Nat) :
    attendanceReport emps recs ds de =
      (emps.filter (fun emp => emp.status == EmpStatus.active)).map (fun emp =>
        ⟨emp.id, ⟨specDayCount recs emp.id ds de AttStatus.present,
                  specDayCount recs emp.id ds de AttStatus.absent,
                  specDayCount recs emp.id ds de AttStatus.halfDay,
                  specDayCount recs emp.id ds de AttStatus.leave,
                  specDayCount recs emp.id ds de AttStatus.present +
                    specDayCount recs emp.id ds de AttStatus.absent +
                    specDayCount recs emp.id ds de AttStatus.halfDay +
                    specDayCount recs emp.id ds de AttStatus.leave⟩⟩) := by
  unfold attendanceReport
  apply List.map_congr_left
  intro emp _
  dsimp only
  rw [count_filter_spec, count_filter_spec, count_filter_spec, count_filter_spec]

theorem calendarEntries_eq_spec (leaves : List LeaveRequest)
    (empName : Nat → String) (wS wE : Nat) (hw : wS ≤ wE)
    (hl : ∀ l ∈ leaves, l.startDay ≤ l.endDay) :
    calendarEntries leaves empName wS wE = calendarSpec leaves empName wS wE := by
  unfold calendarEntries calendarSpec
  have hf : leaves.filter (fun l => l.status == LeaveStatus.approved &&
      overlapsDisjunct l.startDay l.endDay wS wE) =
    leaves.filter (fun l => l.status == LeaveStatus.approved &&
      overlaps l.startDay l.endDay wS wE) := by
    apply List.filter_congr
    intro l hmem
    rw [overlapsDisjunct_eq_overlaps (hl l hmem) hw]
  rw [hf]

/-- Claim C5, amended: for `startDay > endDay` no `InvalidRange` failure
occurs — date-range expansion returns the empty sequence, and
`GET /attendance/report` returns one entry per active employee with every
count zero. -/
theorem report_invalid_range_general (ds de : Nat) (hlt : de < ds)
    (emps : List Employee) (recs : List AttRec) :
    dayRangeList ds de = []
      ∧ attendanceReport emps recs ds de =
        (emps.filter (fun emp => emp.status == EmpStatus.active)).map (fun emp =>
          ⟨emp.id, ⟨0, 0, 0, 0, 0⟩⟩) := by
  constructor
  · unfold dayRangeList
    have h0 : de + 1 - ds = 0 := by omega
    rw [h0]
    rfl
  · have hzero : ∀ st, ∀ e, specDayCount recs e ds de st = 0 := by
      intro st e
      unfold specDayCount
      have : recs.filter (fun r => r.employee == e && r.status == st &&
          (decide (ds ≤ dayOf r.date) && decide (dayOf r.date ≤ de))) = [] := by
        rw [List.filter_eq_nil_iff]
        intro r _
        simp only [Bool.and_eq_true, decide_eq_true_iff, beq_iff_eq]
        rintro ⟨-, h1, h2⟩
        omega
      rw [this]
      rfl
    rw [attendanceReport_general]
    apply List.map_congr_left
    intro emp _
    simp [hzero]



/-- Claim C3, amended: the overlap check of `POST /leaves` ignores status
entirely — the create fails with `OverlappingLeave` exactly when the
employee exists, is active, has `present` attendance history, and SOME
existing request of the employee (of any status, rejected included)
satisfies the overlap disjunction against the requested span. -/
theorem createLeave_overlap_iff (env : Env) (req : LeaveInput) :
    createLeave env req = Except.error CreateErr.overlappingLeave ↔
      ((∃ emp, findEmployee env.employees req.employee = some emp ∧
          emp.status = EmpStatus.active)
       ∧ (∃ r ∈ env.attendance, r.employee = req.employee ∧ r.status = AttStatus.present)
       ∧ (∃ l ∈ env.leaves, l.employee = req.employee ∧
          overlapsDisjunct l.startDay l.endDay req.startDay req.endDay = true)) := by
  unfold createLeave
  cases hfe : findEmployee env.employees req.employee with
  | none => simp [hfe]
  | some emp =>
    cases hact : emp.status == EmpStatus.active with
    | false =>
      have hb : (emp.status != EmpStatus.active) = true := by
        simp only [bne]
        rw [hact]
        rfl
      simp only [hfe, hb, if_true]
      constructor
      · intro h
        exact absurd h (by simp)
      · rintro ⟨⟨emp2, hemp2, hact2⟩, -, -⟩
        rw [Option.some.injEq] at hemp2
        subst hemp2
        rw [hact2] at hact
        simp at hact
    | true =>
      have hb : (emp.status != EmpStatus.active) = false := by
        simp only [bne]
        rw [hact]
        rfl
      have hacteq : emp.status = EmpStatus.active := by
        simpa using hact
      simp only [hfe, hb, Bool.false_eq_true, if_false]
      cases hhist : env.attendance.any (fun r =>
          r.employee == req.employee && r.status == AttStatus.present) with
      | false =>
        simp only [hhist, Bool.not_false, if_true]
        constructor
        · intro h
          exact absurd h (by simp)
        · rintro ⟨-, ⟨r, hr, hre, hrs⟩, -⟩
          have : env.attendance.any (fun r =>
              r.employee == req.employee && r.status == AttStatus.present) = true :=
            List.any_eq_true.2 ⟨r, hr, by simp [hre, hrs]⟩
          rw [hhist] at this
          simp at this
      | true =>
        simp only [hhist, Bool.not_true, Bool.false_eq_true, if_false]
        cases hover : env.leaves.any (fun l => l.employee == req.employee &&
            overlapsDisjunct l.startDay l.endDay req.startDay req.endDay) with
        | false =>
          simp only [hover, Bool.false_eq_true, if_false]
          constructor
          · intro h
            exact absurd h (by simp)
          · rintro ⟨-, -, ⟨l, hl, hle, hlo⟩⟩
            have : env.leaves.any (fun l => l.employee == req.employee &&
                overlapsDisjunct l.startDay l.endDay req.startDay req.endDay) = true :=
              List.any_eq_true.2 ⟨l, hl, by simp [hle, hlo]⟩
            rw [hover] at this
            simp at this
        | true =>
          simp only [hover, if_true]
          constructor
          · intro _
            refine ⟨⟨emp, rfl, hacteq⟩, ?_, ?_⟩
            · rcases List.any_eq_true.1 hhist with ⟨r, hr, hrp⟩
              simp only [Bool.and_eq_true, beq_iff_eq] at hrp
              exact ⟨r, hr, hrp.1, hrp.2⟩
            · rcases List.any_eq_true.1 hover with ⟨l, hl, hlp⟩
              simp only [Bool.and_eq_true, beq_iff_eq] at hlp
              exact ⟨l, hl, hlp.1, hlp.2⟩
          · intro _
            trivial



theorem any_false_iff_filter_len {p : AttRec → Bool} {l : List AttRec} :
    l.any p = false ↔ (l.filter p).length = 0 := by
  rw [List.length_eq_zero, List.filter_eq_nil_iff, ← Bool.not_eq_true, List.any_eq_true]
  simp

theorem createLeave_inactive_iff (env : Env) (req : LeaveInput) :
    createLeave env req = Except.error CreateErr.employeeInactive ↔
      ∃ emp, findEmployee env.employees req.employee = some emp ∧
        (emp.status == EmpStatus.active) = false := by
  unfold createLeave
  cases hfe : findEmployee env.employees req.employee with
  | none => simp [hfe]
  | some emp =>
    cases hact : emp.status == EmpStatus.active with
    | false =>
      have hb : (emp.status != EmpStatus.active) = true := by
        simp only [bne]
        rw [hact]
        rfl
      simp only [hfe, hb, if_true]
      constructor
      · intro _
        exact ⟨emp, rfl, hact⟩
      · intro _
        trivial
    | true =>
      have hb : (emp.status != EmpStatus.active) = false := by
        simp only [bne]
        rw [hact]
        rfl
      simp only [hfe, hb, Bool.false_eq_true, if_false]
      constructor
      · intro h
        split at h
        · simp at h
        · split at h
          · simp at h
          · simp at h
      · rintro ⟨emp2, hemp2, hact2⟩
        rw [Option.some.injEq] at hemp2
        subst hemp2
        rw [hact] at hact2
        simp at hact2

theorem createLeave_nohistory_iff (env : Env) (req : LeaveInput) :
    createLeave env req = Except.error CreateErr.noAttendanceHistory ↔
      ((∃ emp, findEmployee env.employees req.employee = some emp ∧
          emp.status = EmpStatus.active)
       ∧ (env.attendance.filter (fun r =>
            r.employee == req.employee && r.status == AttStatus.present)).length = 0) := by
  unfold createLeave
  cases hfe : findEmployee env.employees req.employee with
  | none => simp [hfe]
  | some emp =>
    cases hact : emp.status == EmpStatus.active with
    | false =>
      have hb : (emp.status != EmpStatus.active) = true := by
        simp only [bne]
        rw [hact]
        rfl
      simp only [hfe, hb, if_true]
      constructor
      · intro h
        exact absurd h (by simp)
      · rintro ⟨⟨emp2, hemp2, hact2⟩, -⟩
        rw [Option.some.injEq] at hemp2
        subst hemp2
        rw [hact2] at hact
        simp at hact
    | true =>
      have hb : (emp.status != EmpStatus.active) = false := by
        simp only [bne]
        rw [hact]
        rfl
      have hacteq : emp.status = EmpStatus.active := by
        simpa using hact
      simp only [hfe, hb, Bool.false_eq_true, if_false]
      cases hhist : env.attendance.any (fun r =>
          r.employee == req.employee && r.status == AttStatus.present) with
      | false =>
        simp only [hhist, Bool.not_false, if_true]
        constructor
        · intro _
          exact ⟨⟨emp, rfl, hacteq⟩, any_false_iff_filter_len.1 hhist⟩
        · intro _
          trivial
      | true =>
        simp only [hhist, Bool.not_true, Bool.false_eq_true, if_false]
        constructor
        · intro h
          split at h <;> simp_all
        · rintro ⟨-, hlen⟩
          have := any_false_iff_filter_len.2 hlen
          rw [hhist] at this
          simp at this

theorem createLeave_ok_pending (env : Env) (req : LeaveInput) (nl : LeaveRequest)
    (env2 : Env) (h : createLeave env req = Except.ok (nl, env2)) :
    nl.status = LeaveStatus.pending := by
  unfold createLeave at h
  cases hfe : findEmployee env.employees req.employee with
  | none =>
    rw [hfe] at h
    simp at h
  | some emp =>
    cases hb : emp.status != EmpStatus.active with
    | true =>
      simp only [hfe, hb, if_true] at h
      exact absurd h (by simp)
    | false =>
      simp only [hfe, hb, Bool.false_eq_true, if_false] at h
      cases hh : env.attendance.any (fun r =>
          r.employee == req.employee && r.status == AttStatus.present) with
      | false =>
        simp only [hh, Bool.not_false, if_true] at h
        exact absurd h (by simp)
      | true =>
        simp only [hh, Bool.not_true, Bool.false_eq_true, if_false] at h
        cases ho : env.leaves.any (fun l => l.employee == req.employee &&
            overlapsDisjunct l.startDay l.endDay req.startDay req.endDay) with
        | true =>
          simp only [ho, if_true] at h
          exact absurd h (by simp)
        | false =>
          simp only [ho, Bool.false_eq_true, if_false] at h
          simp only [Except.ok.injEq, Prod.mk.injEq] at h
          rcases h with ⟨h1, -⟩
          rw [← h1]


theorem dispatchLeaves_never_calendar (m : Method) (path : List String) :
    decide (dispatchLeaves m path = some LeavesRoute.calendar) = false := by
  rw [decide_eq_false_iff_not]
  intro h
  unfold dispatchLeaves at h
  rcases Option.map_eq_some'.1 h with ⟨a, hfind, ha⟩
  have hmem := List.mem_of_find?_eq_some hfind
  have hpred := List.find?_some hfind
  have haeq : a = (Method.get, [Seg.lit "calendar"], LeavesRoute.calendar) := by
    have hall : ∀ b ∈ leavesRoutes, b.2.2 = LeavesRoute.calendar →
        b = (Method.get, [Seg.lit "calendar"], LeavesRoute.calendar) := by decide
    exact hall a hmem ha
  subst haeq
  simp only [Bool.and_eq_true, beq_iff_eq] at hpred
  rcases hpred with ⟨hm, hseg⟩
  cases hm
  rcases path with _ | ⟨x, _ | ⟨y, ys⟩⟩
  · simp [segsMatch] at hseg
  · simp only [segsMatch, Bool.and_eq_true, beq_iff_eq] at hseg
    rcases hseg with ⟨hx, -⟩
    subst hx
    exact absurd hfind (by decide)
  · simp [segsMatch] at hseg


/-- Claim C1: the spec's invariant — at most one attendance record per
`(employee, day)` after any sequence of manual entries and syncs — is broken
by the code at this input: approving a leave covering day 5 makes the sync
insert a record dated 23:59:59.999 of day 5, after which a manual
`POST /attendance` for the same employee dated 00:00:00.000 of day 5 passes
the exact-timestamp duplicate check and is accepted, leaving two records for
the pair (employee 1, day 5).  The `Attendance` schema's index comment says
the index is meant to "ensure one attendance record per employee per day",
so this is a defect of the code, not of the claim. -/
theorem attendance_duplicate_day_failing_input :
    syncLeave ⟨1, 5, 5, LeaveType.sick, LeaveStatus.approved⟩ [] =
      [⟨1, dayEndTs 5, AttStatus.leave⟩]
    ∧ postAttendance [⟨1, "E", EmpStatus.active⟩]
        [⟨1, dayEndTs 5, AttStatus.leave⟩] 1 (dayStartTs 5) AttStatus.present =
      Except.ok [⟨1, dayEndTs 5, AttStatus.leave⟩, ⟨1, dayStartTs 5, AttStatus.present⟩]
    ∧ (([⟨1, dayEndTs 5, AttStatus.leave⟩, ⟨1, dayStartTs 5, AttStatus.present⟩] :
        List AttRec).filter (matchesDay 1 5)).length = 2 :=
  ⟨rfl, rfl, rfl⟩

/-- Claim C2: the Reconciler sync of `PUT /leaves/:id` is idempotent — for
every leave and every starting attendance state, running the per-day upsert
loop twice yields exactly the attendance state of running it once: no
duplicate rows appear and no day's status differs. -/
theorem syncLeave_idempotent (l : LeaveRequest) (s : List AttRec) :
    syncLeave l (syncLeave l s) = syncLeave l s := by
  unfold syncLeave syncSpan
  exact foldl_syncDay_fixed (fun d hd => goodDay_foldl_mem hd s)

/-- Claim C3, counterexample: the employee is active, has a `present`
attendance record, and the only existing overlapping leave request has
status `rejected`, yet `POST /leaves` fails with `OverlappingLeave` — the
overlap query of the code carries no status filter, so rejected requests are
NOT excluded as the claim asserts. -/
theorem rejected_overlap_still_blocks :
    findEmployee [⟨1, "E", EmpStatus.active⟩] 1 = some ⟨1, "E", EmpStatus.active⟩
    ∧ ([⟨1, dayStartTs 3, AttStatus.present⟩] : List AttRec).any
        (fun r => r.employee == 1 && r.status == AttStatus.present) = true
    ∧ ([⟨1, 10, 12, LeaveType.sick, LeaveStatus.rejected⟩] : List LeaveRequest).all
        (fun l => l.status == LeaveStatus.rejected) = true
    ∧ overlapsDisjunct 10 12 11 15 = true
    ∧ createLeave ⟨[⟨1, "E", EmpStatus.active⟩], [⟨1, dayStartTs 3, AttStatus.present⟩],
          [⟨1, 10, 12, LeaveType.sick, LeaveStatus.rejected⟩]⟩
        ⟨1, 11, 15, LeaveType.casual⟩ = Except.error CreateErr.overlappingLeave :=
  ⟨rfl, rfl, rfl, rfl, rfl⟩

/-- Claim C4, counterexample: a leave whose stored status is `rejected` is
transitioned to `approved` by `PUT /leaves/:id` when the body carries status
`approved` — the handler never inspects the current status. -/
theorem rejected_leave_approved_via_put :
    (⟨1, 10, 12, LeaveType.sick, LeaveStatus.rejected⟩ : LeaveRequest).status =
      LeaveStatus.rejected
    ∧ (putLeave ⟨1, 10, 12, LeaveType.sick, LeaveStatus.rejected⟩
        (some LeaveStatus.approved) []).1.status = LeaveStatus.approved :=
  ⟨rfl, rfl⟩

/-- Claim C4, amended: `PUT /leaves/:id` overwrites the stored status with
whatever status the body supplies (any transition is possible, including
`rejected → approved`); the attendance sync runs exactly when the body's
status is `approved` — hence it never runs when the resulting status is
`pending` or `rejected`, and the attendance state is untouched when it does
not run. -/
theorem putLeave_transition (l : LeaveRequest) (body : Option LeaveStatus)
    (s : List AttRec) :
    (putLeave l body s).1.status = body.getD l.status
    ∧ (putLeave l body s).2.2 = (body == some LeaveStatus.approved)
    ∧ ((putLeave l body s).2.2 = true →
        (putLeave l body s).1.status = LeaveStatus.approved)
    ∧ ((putLeave l body s).2.2 = false → (putLeave l body s).2.1 = s) := by
  unfold putLeave
  cases body with
  | none => simp
  | some st => cases st <;> simp

/-- Witness for C4's amended theorem at concrete inputs. -/
theorem putLeave_transition_witness :
    (putLeave ⟨1, 10, 12, LeaveType.sick, LeaveStatus.pending⟩
        (some LeaveStatus.approved) []).1.status = LeaveStatus.approved
    ∧ (putLeave ⟨1, 10, 12, LeaveType.sick, LeaveStatus.pending⟩ none []).2.1 = [] :=
  ⟨(putLeave_transition ⟨1, 10, 12, LeaveType.sick, LeaveStatus.pending⟩
      (some LeaveStatus.approved) []).2.2.1 rfl,
   (putLeave_transition ⟨1, 10, 12, LeaveType.sick, LeaveStatus.pending⟩
      none []).2.2.2 rfl⟩

/-- Claim C5, counterexample: with `startDay > endDay` the date-range
expansion returns the empty sequence and `GET /attendance/report` returns
the all-zero tally the claim says it must not return — no `InvalidRange`
failure exists anywhere in the code. -/
theorem invalid_range_returns_zero :
    dayRangeList 5 3 = []
    ∧ attendanceReport [⟨1, "E", EmpStatus.active⟩]
        [⟨1, dayStartTs 4, AttStatus.present⟩] 5 3 = [⟨1, ⟨0, 0, 0, 0, 0⟩⟩] :=
  ⟨rfl, rfl⟩

/-- Witness for C5's amended theorem at concrete inputs. -/
theorem report_invalid_range_witness :
    dayRangeList 7 2 = []
    ∧ attendanceReport [⟨3, "F", EmpStatus.active⟩] [] 7 2 =
        [⟨3, ⟨0, 0, 0, 0, 0⟩⟩] := by
  have h := report_invalid_range_general 7 2 (by decide) [⟨3, "F", EmpStatus.active⟩] []
  exact ⟨h.1, by rw [h.2]; rfl⟩

/-- Claim C6: `GET /attendance/report` returns one entry per active employee
(in collection order, zero-record employees included), where each count
equals the number of that employee's attendance records whose calendar day
lies in `[startDay, endDay]` with the corresponding status and the total is
the sum of the four counts; the spec's January-2024 scenario evaluates as
claimed. -/
theorem attendanceReport_correct :
    (∀ (emps : List Employee) (recs : List AttRec) (ds de : Nat),
      attendanceReport emps recs ds de =
        (emps.filter (fun emp => emp.status == EmpStatus.active)).map (fun emp =>
          ⟨emp.id, ⟨specDayCount recs emp.id ds de AttStatus.present,
                    specDayCount recs emp.id ds de AttStatus.absent,
                    specDayCount recs emp.id ds de AttStatus.halfDay,
                    specDayCount recs emp.id ds de AttStatus.leave,
                    specDayCount recs emp.id ds de AttStatus.present +
                      specDayCount recs emp.id ds de AttStatus.absent +
                      specDayCount recs emp.id ds de AttStatus.halfDay +
                      specDayCount recs emp.id ds de AttStatus.leave⟩⟩))
    ∧ attendanceReport [⟨1, "E", EmpStatus.active⟩]
        [⟨1, dayStartTs (dayNumber 2024 1 5), AttStatus.present⟩,
         ⟨1, dayStartTs (dayNumber 2024 1 10), AttStatus.leave⟩,
         ⟨1, dayStartTs (dayNumber 2024 1 11), AttStatus.leave⟩,
         ⟨1, dayStartTs (dayNumber 2024 1 12), AttStatus.leave⟩]
        (dayNumber 2024 1 1) (dayNumber 2024 1 31) = [⟨1, ⟨1, 0, 0, 3, 4⟩⟩] :=
  ⟨attendanceReport_general, by decide⟩

/-- Claim C7: `GET /leaves/calendar` emits, for every approved leave whose
span meets the month window and for no pending or rejected leave, exactly
one entry per day of the span clipped to the month boundary (the code's
three-branch overlap query coincides with the spec's intersection predicate
on proper intervals); the spec's scenario — January 2024 with an approved
leave 2024-01-30..2024-02-02 and a pending one — yields exactly the two
January entries of the approved leave. -/
theorem leaveCalendar_correct :
    (∀ (leaves : List LeaveRequest) (empName : Nat → String) (wS wE : Nat),
        wS ≤ wE → (∀ l ∈ leaves, l.startDay ≤ l.endDay) →
        calendarEntries leaves empName wS wE = calendarSpec leaves empName wS wE)
    ∧ leaveCalendar
        [⟨7, dayNumber 2024 1 30, dayNumber 2024 2 2, LeaveType.casual,
            LeaveStatus.approved⟩,
         ⟨8, dayNumber 2024 1 10, dayNumber 2024 1 12, LeaveType.sick,
            LeaveStatus.pending⟩]
        (fun i => if i == 7 then "A" else "B") 1 2024 =
      [⟨dayNumber 2024 1 30, "A", LeaveType.casual⟩,
       ⟨dayNumber 2024 1 31, "A", LeaveType.casual⟩] :=
  ⟨calendarEntries_eq_spec, by decide⟩

/-- Witness for C7's general part at concrete inputs. -/
theorem leaveCalendar_correct_witness :
    calendarEntries [⟨7, 10, 12, LeaveType.sick, LeaveStatus.approved⟩]
        (fun _ => "A") 11 20 =
      calendarSpec [⟨7, 10, 12, LeaveType.sick, LeaveStatus.approved⟩]
        (fun _ => "A") 11 20 :=
  leaveCalendar_correct.1 _ _ 11 20 (by decide) (by decide)

/-- Claim C8: because `GET /leaves/:id` is registered before
`GET /leaves/calendar`, a GET request for path `/leaves/calendar` is
dispatched to the `:id` handler with `id = "calendar"`; `"calendar"` is not
a valid object id, so the handler answers 404 `'Leave not found'` whatever
the database holds; and no request at all reaches the calendar handler. -/
theorem calendar_route_shadowed :
    dispatchLeaves Method.get ["calendar"] = some LeavesRoute.getById
    ∧ bindParams [Seg.param "id"] ["calendar"] = [("id", "calendar")]
    ∧ (∀ db : List (String × LeaveRequest),
        getLeaveById db "calendar" = LeaveResponse.notFound)
    ∧ (∀ (m : Method) (path : List String),
        decide (dispatchLeaves m path = some LeavesRoute.calendar) = false) := by
  refine ⟨rfl, rfl, ?_, dispatchLeaves_never_calendar⟩
  intro db
  have h : isValidObjectId "calendar" = false := by decide
  simp [getLeaveById, h]

/-- Claim C9: `POST /leaves` fails with `EmployeeInactive` exactly when the
employee exists but is not active; it fails with `NoAttendanceHistory`
exactly when the employee exists, is active (the earlier guards pass) and
has zero attendance records with status `present`; and on success the
created leave has status `pending`. -/
theorem createLeave_error_conditions (env : Env) (req : LeaveInput) :
    (createLeave env req = Except.error CreateErr.employeeInactive ↔
      ∃ emp, findEmployee env.employees req.employee = some emp ∧
        (emp.status == EmpStatus.active) = false)
    ∧ (createLeave env req = Except.error CreateErr.noAttendanceHistory ↔
      ((∃ emp, findEmployee env.employees req.employee = some emp ∧
          emp.status = EmpStatus.active)
       ∧ (env.attendance.filter (fun r =>
            r.employee == req.employee && r.status == AttStatus.present)).length = 0))
    ∧ (∀ (nl : LeaveRequest) (env2 : Env),
        createLeave env req = Except.ok (nl, env2) → nl.status = LeaveStatus.pending) :=
  ⟨createLeave_inactive_iff env req, createLeave_nohistory_iff env req,
   fun nl env2 h => createLeave_ok_pending env req nl env2 h⟩

/-- Witness for C9's success clause at a concrete successful creation. -/
theorem createLeave_error_conditions_witness :
    (⟨1, 20, 22, LeaveType.casual, LeaveStatus.pending⟩ : LeaveRequest).status =
      LeaveStatus.pending :=
  (createLeave_error_conditions
      ⟨[⟨1, "E", EmpStatus.active⟩], [⟨1, dayStartTs 3, AttStatus.present⟩], []⟩
      ⟨1, 20, 22, LeaveType.casual⟩).2.2
    ⟨1, 20, 22, LeaveType.casual, LeaveStatus.pending⟩
    ⟨[⟨1, "E", EmpStatus.active⟩], [⟨1, dayStartTs 3, AttStatus.present⟩],
      [⟨1, 20, 22, LeaveType.casual, LeaveStatus.pending⟩]⟩ rfl

/-- Claim C10: on proper intervals the code's three-branch overlap
disjunction equals the spec's single closed-interval intersection predicate
`aS ≤ bE ∧ bS ≤ aE`, and the latter is symmetric in its two interval
arguments. -/
theorem overlap_disjunct_equiv_symm :
    (∀ aS aE bS bE : Nat, aS ≤ aE → bS ≤ bE →
        overlapsDisjunct aS aE bS bE = overlaps aS aE bS bE)
    ∧ (∀ aS aE bS bE : Nat, overlaps aS aE bS bE = overlaps bS bE aS aE) := by
  refine ⟨fun aS aE bS bE ha hb => overlapsDisjunct_eq_overlaps ha hb, ?_⟩
  intro aS aE bS bE
  unfold overlaps
  rw [Bool.and_comm]

/-- Witness for C10's equivalence clause at concrete inputs. -/
theorem overlap_disjunct_equiv_symm_witness :
    overlapsDisjunct 1 4 3 8 = overlaps 1 4 3 8 :=
  overlap_disjunct_equiv_symm.1 1 4 3 8 (by decide) (by decide)

end HRMS
